import Mathlib

/-!
Shallow embedding of the M48 Z-probe repeatability routine of MK4duo
(src/MK4duo/src/commands/gcode/calibrate/m48.h, function gcode_M48) and
a verification of its stated properties.

Modelling conventions:
* machine floating point numbers are modelled as rationals;
* the serial reporting channel, the motion planner, the probe driver and
  the bed-leveling subsystem are external collaborators; their invocations
  are recorded in an explicit event trace (`Ev`);
* `probe.check_pt` results are an environment stream `readings : ℕ → Option ℚ`
  indexed by call order, `none` standing for NAN (a failed probe);
* the Arduino random source is an environment stream `rand : ℕ → ℕ` of raw
  draws, `randIn` turning a raw draw into `random(lo, hi)`;
* the compile-time DELTA / cartesian distinction is an environment flag;
* the debug prints guarded by `verbose_level > 3` are not part of the trace
  (no claim mentions them); the claim-relevant serial lines are.
-/

namespace M48

/-- Running statistics kept by the sample loop of `gcode_M48`: current mean,
the square of the standard deviation, running min and max, and the sample_set
array collected so far.  The code stores `sigma` itself; we keep its square so
that the state stays rational (`sigma = sqrt sigmaSq`). -/
structure Stats where
  mean : ℚ
  sigmaSq : ℚ
  minv : ℚ
  maxv : ℚ
  samples : List ℚ

/-- Initial accumulator state of `gcode_M48`:
`mean = 0.0, sigma = 0.0, min = 99999.9, max = -99999.9`, empty sample set. -/
def statsInit : Stats :=
  { mean := 0, sigmaSq := 0, minv := 999999/10, maxv := -999999/10, samples := [] }

/-- One iteration of the statistics section of the probe loop (m48.h lines
204-219): append the new sample to `sample_set`, recompute the mean as the full
sum over all samples so far, update min by `NOMORE(min, sample_set[n])` and max
by `NOLESS(max, sample_set[n])`, and recompute sigma from scratch with the
current mean (`sigma = SQRT(sum / (n + 1))`; we store the square). -/
def m48Update (st : Stats) (s : ℚ) : Stats :=
  let samples := st.samples ++ [s]
  let n1 : ℚ := (samples.length : ℚ)
  let mean := samples.sum / n1
  { mean := mean
    sigmaSq := (samples.map (fun x => (x - mean) ^ 2)).sum / n1
    minv := min st.minv s
    maxv := max st.maxv s
    samples := samples }

/-- The maximal run of successful probe readings delivered by the stream `f`
starting at call index `i`, truncated to `c` readings. -/
def succReads (f : ℕ → Option ℚ) : ℕ → ℕ → List ℚ
  | _, 0 => []
  | i, c + 1 =>
    match f i with
    | none => []
    | some z => z :: succReads f (i + 1) c

/-- The first wrapping loop of m48.h (lines 159-160):
`while (angle > 360.0) angle -= 360.0;`. -/
def wrapDown (a : ℚ) : ℚ :=
  if h : 360 < a then wrapDown (a - 360) else a
termination_by (⌈a⌉).toNat
decreasing_by
  have h1 : (360 : ℤ) < ⌈a⌉ := Int.lt_ceil.mpr (by exact_mod_cast h)
  have h2 : ⌈a - (360 : ℚ)⌉ = ⌈a⌉ - 360 := by
    have h3 := Int.ceil_sub_int a (360 : ℤ)
    push_cast at h3
    exact_mod_cast h3
  rw [h2]
  omega

/-- The second wrapping loop of m48.h (lines 161-162):
`while (angle < 0.0) angle += 360.0;`. -/
def wrapUp (a : ℚ) : ℚ :=
  if h : a < 0 then wrapUp (a + 360) else a
termination_by (-⌊a⌋).toNat
decreasing_by
  have h1 : ⌊a⌋ < 0 := by
    have := Int.floor_le_floor (le_of_lt h)
    have h0 : ⌊(0 : ℚ)⌋ = 0 := Int.floor_zero
    have h4 : ⌊a⌋ < ⌊(0:ℚ)⌋ ∨ ⌊a⌋ = ⌊(0:ℚ)⌋ := lt_or_eq_of_le this
    rcases h4 with h4 | h4
    · omega
    · exfalso
      have : (⌊a⌋ : ℚ) ≤ a := Int.floor_le a
      rw [h4, h0] at this
      push_cast at this
      exact absurd h (not_lt.mpr this)
  have h2 : ⌊a + (360 : ℚ)⌋ = ⌊a⌋ + 360 := by
    have h3 := Int.floor_add_int a (360 : ℤ)
    push_cast at h3
    exact_mod_cast h3
  rw [h2]
  omega

/-- Both wrapping loops in source order: the angle is first brought down below
the 360 bound, then lifted above 0. -/
def wrapAngle (a : ℚ) : ℚ := wrapUp (wrapDown a)

/-- Arduino `random(lo, hi)` applied to one raw draw `r` of the random stream:
a value in `[lo, hi)` (and `lo` itself when the interval is empty, as
`random(0)` returns 0). -/
def randIn (lo hi : ℤ) (r : ℕ) : ℤ :=
  if hi ≤ lo then lo else lo + (r : ℤ) % (hi - lo)

/-- Direction pick of m48.h line 125:
`const int dir = (random(0, 10) > 5.0) ? -1 : 1;`. -/
def dirDraw (r : ℤ) : ℤ := if 5 < r then -1 else 1

/-- C cast of a floating value to `int`: truncation toward zero. -/
def truncQ (q : ℚ) : ℤ := if 0 ≤ q then ⌊q⌋ else ⌈q⌉

/-- The `LIMIT(v, lo, hi)` macro used on cartesian machines (m48.h lines
179-180): clamp `v` into `[lo, hi]`. -/
def limitQ (lo hi v : ℚ) : ℚ := min hi (max lo v)

/-- The DELTA reachability-correction loop of m48.h lines 170-177:
`while (!position_is_reachable_by_probe(X, Y)) { X *= 0.8; Y *= 0.8; }`,
with an explicit fuel so that the model stays total; `none` means the fuel
was exhausted before a reachable point was found. -/
def pullIn (reach : ℚ → ℚ → Bool) : ℕ → ℚ → ℚ → Option (ℚ × ℚ)
  | 0, x, y => if reach x y then some (x, y) else none
  | fuel + 1, x, y =>
    if reach x y then some (x, y) else pullIn reach fuel (0.8 * x) (0.8 * y)

/-- Modelled from the spec: `mechanics.position_is_reachable_by_probe` for
center-pivoted (DELTA) kinematics is not part of src/ (only its call sites
are); the spec describes reachable points as bounded by the probe radius
around the central pivot. -/
def deltaReachable (R x y : ℚ) : Bool := decide (x ^ 2 + y ^ 2 ≤ R ^ 2)

/-- The observable actions of one `gcode_M48` run: the claim-relevant serial
lines, and every call into the motion / probe / leveling collaborators. -/
inductive Ev where
  | headerMsg
  | posMsg
  | errVerbose
  | errSamples
  | errOutOfBounds
  | errLegs
  | levelingOff
  | setupMove
  | probeRead (i : ℕ)
  | moveTo (x y : ℚ)
  | progress (n : ℕ) (z : ℚ)
  | progressStats (mean sigmaSq minv maxv range : ℚ)
  | stow
  | finished
  | reportMeanMinMax (mean minv maxv range : ℚ)
  | reportSigmaSq (sigmaSq : ℚ)
  | cleanup
  | levelingRestore
  | reportPos

/-- Events that are mechanical side effects (motion, probing, probe
deploy/stow, endstop setup and the bed-leveling switch), as opposed to pure
reporting. -/
def Ev.isMechanical : Ev → Bool
  | .levelingOff => true
  | .setupMove => true
  | .probeRead _ => true
  | .moveTo _ _ => true
  | .stow => true
  | .cleanup => true
  | .levelingRestore => true
  | _ => false

/-- Probe read events. -/
def Ev.isProbeRead : Ev → Bool
  | .probeRead _ => true
  | _ => false

/-- Blocking XY motion events. -/
def Ev.isMoveTo : Ev → Bool
  | .moveTo _ _ => true
  | _ => false

/-- The final mean / min / max / range serial line. -/
def Ev.isReportMMM : Ev → Bool
  | .reportMeanMinMax _ _ _ _ => true
  | _ => false

/-- The final standard-deviation serial line. -/
def Ev.isReportSigma : Ev → Bool
  | .reportSigmaSq _ => true
  | _ => false

/-- The probe stow issued at loop exit. -/
def Ev.isStow : Ev → Bool
  | .stow => true
  | _ => false

/-- The `Finished!` serial line. -/
def Ev.isFinished : Ev → Bool
  | .finished => true
  | _ => false

/-- The bed-leveling state restore. -/
def Ev.isLevelRestore : Ev → Bool
  | .levelingRestore => true
  | _ => false

/-- The final position report. -/
def Ev.isReportPos : Ev → Bool
  | .reportPos => true
  | _ => false

/-- Events that can be produced inside the sample loop. -/
def Ev.isLoopEv : Ev → Bool
  | .probeRead _ => true
  | .moveTo _ _ => true
  | .progress _ _ => true
  | .progressStats _ _ _ _ _ => true
  | _ => false

/-- Number of events of a trace satisfying a predicate. -/
def countP (p : Ev → Bool) (evs : List Ev) : ℕ := (evs.filter p).length

/-- Machine kinematics, a compile-time choice in the source
(`#if MECH(DELTA)`). -/
inductive Kin where
  | delta
  | cartesian

/-- The collaborators and ambient machine state one `gcode_M48` run sees. -/
structure Env where
  /-- Whether all axes are homed (`mechanics.axis_unhomed_error`). -/
  homed : Bool
  /-- Current X position. -/
  curX : ℚ
  /-- Current Y position. -/
  curY : ℚ
  /-- Probe X offset. -/
  offX : ℚ
  /-- Probe Y offset. -/
  offY : ℚ
  /-- `mechanics.position_is_reachable_by_probe`. -/
  reachable : ℚ → ℚ → Bool
  /-- Results of the successive `probe.check_pt` calls; `none` is NAN. -/
  readings : ℕ → Option ℚ
  /-- Raw draws of the Arduino random source, in draw order. -/
  rand : ℕ → ℕ
  /-- Compile-time kinematics. -/
  kin : Kin
  /-- `mechanics.data.probe_radius` (DELTA machines). -/
  probeRadius : ℚ
  /-- `X_MIN_BED`. -/
  xMinBed : ℚ
  /-- `X_MAX_BED`. -/
  xMaxBed : ℚ
  /-- `Y_MIN_BED`. -/
  yMinBed : ℚ
  /-- `Y_MAX_BED`. -/
  yMaxBed : ℚ
  /-- Platform `cos(RADIANS(angle))` on the angle in degrees. -/
  cosDeg : ℚ → ℚ
  /-- Platform `sin(RADIANS(angle))` on the angle in degrees. -/
  sinDeg : ℚ → ℚ
  /-- Fuel bound for the DELTA reachability-correction loop. -/
  pullFuel : ℕ

/-- The raw request options of one M48 command, already parsed: `none` means
the letter was not present (`parser.seen` false). -/
structure Params where
  /-- Verbose level `V` (`parser.value_byte()` read into an `int8_t`). -/
  V : Option ℤ
  /-- Sample count `P` (`parser.value_byte()` read into an `int8_t`). -/
  P : Option ℤ
  /-- Target X. -/
  X : Option ℚ
  /-- Target Y. -/
  Y : Option ℚ
  /-- Legs `L` (`parser.value_byte()`, a `uint8_t`). -/
  L : Option ℕ
  /-- Engage flag `E` (chooses `PROBE_PT_STOW` over `PROBE_PT_RAISE`). -/
  E : Bool
  /-- Schizoid flag `S`. -/
  S : Bool

/-- The validated configuration the sample loop runs with. -/
structure Cfg where
  /-- Validated verbose level. -/
  verbose : ℤ
  /-- Normalized number of legs. -/
  legs : ℕ
  /-- Schizoid flag. -/
  schizoid : Bool
  /-- Probe target X. -/
  xp : ℚ
  /-- Probe target Y. -/
  yp : ℚ

/-- Legs normalization of m48.h lines 83-92 (after the range gate):
`n_legs = seen_L ? value : 0; if (n_legs == 1) n_legs = 2;
if (schizoid_flag && !seen_L) n_legs = 7;`. -/
def effectiveLegs (L : Option ℕ) (S : Bool) : ℕ :=
  let l0 := L.getD 0
  let l1 := if l0 = 1 then 2 else l0
  if S = true ∧ L = none then 7 else l1

/-- Lower bound handed to `random` for the leg radius (m48.h lines 127-134). -/
def radiusLo (env : Env) : ℤ :=
  match env.kin with
  | .delta => truncQ (0.1250000000 * env.probeRadius)
  | .cartesian => 5

/-- Upper bound handed to `random` for the leg radius (m48.h lines 127-134). -/
def radiusHi (env : Env) : ℤ :=
  match env.kin with
  | .delta => truncQ (0.3333333333 * env.probeRadius)
  | .cartesian => truncQ (0.125 * min env.xMaxBed env.yMaxBed)

/-- The inner legs loop of one sample (m48.h lines 144-191): `legs - 1`
iterations, each picking an angular increment (`dir * 2.0 * 72.0` in schizoid
mode, `dir * random(25, 45)` otherwise), wrapping the new angle, computing the
candidate waypoint from the target, the probe offset and the trig values,
correcting it (DELTA pull-in loop or cartesian clamping) and issuing a
blocking move.  Returns the next raw-draw index and the extended trace, or
`none` if a DELTA pull-in loop ran out of fuel. -/
def legsPhase (env : Env) (cfg : Cfg) (dir : ℤ) (radius : ℚ) :
    ℕ → ℚ → ℕ → List Ev → Option (ℕ × List Ev)
  | 0, _, ri, evs => some (ri, evs)
  | l + 1, angle, ri, evs =>
    let dA : ℚ :=
      if cfg.schizoid then (dir : ℚ) * 2 * 72
      else (dir : ℚ) * ((randIn 25 45 (env.rand ri) : ℤ) : ℚ)
    let ri' := if cfg.schizoid then ri else ri + 1
    let a := wrapAngle (angle + dA)
    let x0 := cfg.xp - env.offX + env.cosDeg a * radius
    let y0 := cfg.yp - env.offY + env.sinDeg a * radius
    match env.kin with
    | .delta =>
      match pullIn env.reachable env.pullFuel x0 y0 with
      | none => none
      | some (x, y) => legsPhase env cfg dir radius l a ri' (evs ++ [.moveTo x y])
    | .cartesian =>
      legsPhase env cfg dir radius l a ri'
        (evs ++ [.moveTo (limitQ env.xMinBed env.xMaxBed x0)
                         (limitQ env.yMinBed env.yMaxBed y0)])

/-- The `if (n_legs)` block of one sample iteration (m48.h lines 124-192):
draw direction, starting angle and radius, then run the legs loop. -/
def legsStep (env : Env) (cfg : Cfg) (ri : ℕ) (evs : List Ev) :
    Option (ℕ × List Ev) :=
  if cfg.legs = 0 then some (ri, evs)
  else
    legsPhase env cfg (dirDraw (randIn 0 10 (env.rand ri)))
      ((randIn (radiusLo env) (radiusHi env) (env.rand (ri + 2)) : ℤ) : ℚ)
      (cfg.legs - 1) ((randIn 0 360 (env.rand (ri + 1)) : ℤ) : ℚ) (ri + 3) evs

/-- The per-sample serial progress lines of m48.h lines 220-234: sample index
and z reading when `verbose_level > 1`, plus the running mean, sigma, min,
max and range when `verbose_level > 2`. -/
def progressEvs (cfg : Cfg) (n : ℕ) (z : ℚ) (st : Stats) : List Ev :=
  if 1 < cfg.verbose then
    [.progress (n + 1) z] ++
    (if 2 < cfg.verbose then
      [.progressStats st.mean st.sigmaSq st.minv st.maxv (st.maxv - st.minv)]
     else [])
  else []

/-- The probe sample loop of m48.h lines 119-236.  Arguments: remaining
iterations, current sample index `n`, next raw-draw index, next probe-call
index, accumulator state, trace so far.  Returns `probing_good`, the final
accumulator state, the trace, and the next probe-call index; `none` if a
DELTA pull-in loop ran out of fuel. -/
def sampleLoop (env : Env) (cfg : Cfg) :
    ℕ → ℕ → ℕ → ℕ → Stats → List Ev → Option (Bool × Stats × List Ev × ℕ)
  | 0, _, _, reads, st, evs => some (true, st, evs, reads)
  | rem + 1, n, ri, reads, st, evs =>
    match legsStep env cfg ri evs with
    | none => none
    | some (ri', evs') =>
      let evs2 := evs' ++ [.probeRead reads]
      match env.readings reads with
      | none => some (false, st, evs2, reads + 1)
      | some z =>
        let st' := m48Update st z
        sampleLoop env cfg rem (n + 1) ri' (reads + 1) st'
          (evs2 ++ progressEvs cfg n z st')

/-- Everything reported by and left behind by one `gcode_M48` run: the event
trace, the final accumulator state and `probing_good`. -/
structure RunOut where
  /-- The event trace, in order. -/
  evs : List Ev
  /-- The final accumulator state. -/
  stats : Stats
  /-- The final `probing_good` flag. -/
  good : Bool

/-- The M48 header serial line, printed when `verbose_level > 0`
(m48.h lines 61-62). -/
def headerEvs (v : ℤ) : List Ev := if 0 < v then [Ev.headerMsg] else []

/-- The events of m48.h lines 99-112 once validation has passed: optional
positioning message, leveling disable, endstop setup and the initial
deployment probe. -/
def preEvs (v : ℤ) : List Ev :=
  headerEvs v ++ (if 2 < v then [Ev.posMsg] else []) ++
    [Ev.levelingOff, Ev.setupMove, Ev.probeRead 0]

/-- The success-only final serial block of m48.h lines 241-253: `Finished!`,
the mean / min / max / range line when `verbose_level > 0`, and the
standard-deviation line (always). -/
def summaryEvs (v : ℤ) (st : Stats) : List Ev :=
  [Ev.finished] ++
  (if 0 < v then
    [Ev.reportMeanMinMax st.mean st.minv st.maxv (st.maxv - st.minv)]
   else []) ++
  [Ev.reportSigmaSq st.sigmaSq]

/-- The part of `gcode_M48` after parameter validation (m48.h lines 99-271):
positioning message, leveling disable, endstop setup, initial deployment
probe, the sample loop, unconditional stow, the success-only summary block,
cleanup, leveling restore and position report. -/
def runCore (env : Env) (v : ℤ) (ns legs : ℕ) (schiz : Bool) (xp yp : ℚ) :
    Option RunOut :=
  match env.readings 0 with
  | none =>
    some ⟨preEvs v ++ [Ev.stow, Ev.cleanup, Ev.levelingRestore, Ev.reportPos],
      statsInit, false⟩
  | some _ =>
    match sampleLoop env ⟨v, legs, schiz, xp, yp⟩ ns 0 0 1 statsInit (preEvs v) with
    | none => none
    | some (good, st, evs2, _) =>
      some ⟨evs2 ++ [Ev.stow] ++ (if good then summaryEvs v st else []) ++
        [Ev.cleanup, Ev.levelingRestore, Ev.reportPos], st, good⟩

/-- The whole `gcode_M48` routine (m48.h lines 51-271): homing check, the four
fail-fast validation gates in source order (verbose level, sample count,
target reachability, legs), legs normalization, then `runCore`. -/
def gcode_M48 (p : Params) (env : Env) : Option RunOut :=
  if env.homed = false then some ⟨[], statsInit, true⟩
  else if ¬(0 ≤ p.V.getD 1 ∧ p.V.getD 1 ≤ 4) then
    some ⟨[Ev.errVerbose], statsInit, true⟩
  else if ¬(4 ≤ p.P.getD 10 ∧ p.P.getD 10 ≤ 50) then
    some ⟨headerEvs (p.V.getD 1) ++ [Ev.errSamples], statsInit, true⟩
  else if env.reachable (p.X.getD (env.curX + env.offX))
      (p.Y.getD (env.curY + env.offY)) = false then
    some ⟨headerEvs (p.V.getD 1) ++ [Ev.errOutOfBounds], statsInit, true⟩
  else if 15 < p.L.getD 0 then
    some ⟨headerEvs (p.V.getD 1) ++ [Ev.errLegs], statsInit, true⟩
  else
    runCore env (p.V.getD 1) (p.P.getD 10).toNat (effectiveLegs p.L p.S) p.S
      (p.X.getD (env.curX + env.offX)) (p.Y.getD (env.curY + env.offY))

/-- The event trace of a run (empty for a diverging run). -/
def runEvs (p : Params) (env : Env) : List Ev :=
  match gcode_M48 p env with
  | none => []
  | some r => r.evs

/-- The final accumulator state of a run. -/
def runStats (p : Params) (env : Env) : Stats :=
  match gcode_M48 p env with
  | none => statsInit
  | some r => r.stats

/-- The final `probing_good` flag of a run. -/
def runGood (p : Params) (env : Env) : Bool :=
  match gcode_M48 p env with
  | none => true
  | some r => r.good

/-! ### Basic facts about the statistics accumulator -/

lemma m48Update_mean (st : Stats) (a : ℚ) :
    (m48Update st a).mean = (st.samples ++ [a]).sum / ((st.samples ++ [a]).length : ℚ) := rfl

lemma m48Update_sigmaSq (st : Stats) (a : ℚ) :
    (m48Update st a).sigmaSq =
      ((st.samples ++ [a]).map
        (fun x => (x - (st.samples ++ [a]).sum / ((st.samples ++ [a]).length : ℚ)) ^ 2)).sum /
        ((st.samples ++ [a]).length : ℚ) := rfl

lemma foldl_update_samples (ss : List ℚ) (st : Stats) :
    (List.foldl m48Update st ss).samples = st.samples ++ ss := by
  induction ss generalizing st with
  | nil => simp
  | cons a t ih =>
    simp only [List.foldl_cons, ih, m48Update, List.append_assoc, List.singleton_append]

lemma foldl_update_minv (ss : List ℚ) (st : Stats) :
    (List.foldl m48Update st ss).minv = ss.foldl min st.minv := by
  induction ss generalizing st with
  | nil => simp
  | cons a t ih => simp only [List.foldl_cons, ih, m48Update]

lemma foldl_update_maxv (ss : List ℚ) (st : Stats) :
    (List.foldl m48Update st ss).maxv = ss.foldl max st.maxv := by
  induction ss generalizing st with
  | nil => simp
  | cons a t ih => simp only [List.foldl_cons, ih, m48Update]

lemma foldl_min_le_init (l : List ℚ) (i : ℚ) : l.foldl min i ≤ i := by
  induction l generalizing i with
  | nil => simp
  | cons a t ih => exact le_trans (ih (min i a)) (min_le_left i a)

lemma foldl_min_le_mem (l : List ℚ) (i : ℚ) : ∀ s ∈ l, l.foldl min i ≤ s := by
  induction l generalizing i with
  | nil => simp
  | cons a t ih =>
    intro s hs
    rcases List.mem_cons.mp hs with h | h
    · subst h
      exact le_trans (foldl_min_le_init t (min i s)) (min_le_right i s)
    · exact ih (min i a) s h

lemma foldl_min_mem_or (l : List ℚ) (i : ℚ) :
    l.foldl min i = i ∨ l.foldl min i ∈ l := by
  induction l generalizing i with
  | nil => simp
  | cons a t ih =>
    rcases ih (min i a) with h | h
    · rcases min_cases i a with ⟨he, _⟩ | ⟨he, _⟩
      · exact Or.inl (by rw [List.foldl_cons, h, he])
      · exact Or.inr (by rw [List.foldl_cons, h, he]; exact List.mem_cons_self a t)
    · exact Or.inr (List.mem_cons_of_mem a h)

lemma foldl_max_init_le (l : List ℚ) (i : ℚ) : i ≤ l.foldl max i := by
  induction l generalizing i with
  | nil => simp
  | cons a t ih => exact le_trans (le_max_left i a) (ih (max i a))

lemma foldl_max_mem_le (l : List ℚ) (i : ℚ) : ∀ s ∈ l, s ≤ l.foldl max i := by
  induction l generalizing i with
  | nil => simp
  | cons a t ih =>
    intro s hs
    rcases List.mem_cons.mp hs with h | h
    · subst h
      exact le_trans (le_max_right i s) (foldl_max_init_le t (max i s))
    · exact ih (max i a) s h

lemma foldl_max_mem_or (l : List ℚ) (i : ℚ) :
    l.foldl max i = i ∨ l.foldl max i ∈ l := by
  induction l generalizing i with
  | nil => simp
  | cons a t ih =>
    rcases ih (max i a) with h | h
    · rcases max_cases i a with ⟨he, _⟩ | ⟨he, _⟩
      · exact Or.inl (by rw [List.foldl_cons, h, he])
      · exact Or.inr (by rw [List.foldl_cons, h, he]; exact List.mem_cons_self a t)
    · exact Or.inr (List.mem_cons_of_mem a h)

/-- C1, corrected.  After the `k`-th accumulator update the state holds
exactly the `k` samples; the mean is their plain average, recomputed in full;
sigma is the square root of `Σ (sᵢ - mean)² / k` with the final mean over all
`k` samples (we state the square, and the square-root form over `ℝ`); min and
max however are folded from the sentinels `99999.9` and `-99999.9`, so they
are `min(99999.9, s₁..s_k)` and `max(-99999.9, s₁..s_k)` rather than the
plain sample min and max. -/
theorem C1_amended (ss : List ℚ) (hne : ss ≠ []) :
    (List.foldl m48Update statsInit ss).samples = ss ∧
    (List.foldl m48Update statsInit ss).mean = ss.sum / (ss.length : ℚ) ∧
    (List.foldl m48Update statsInit ss).sigmaSq =
      (ss.map (fun x => (x - ss.sum / (ss.length : ℚ)) ^ 2)).sum / (ss.length : ℚ) ∧
    Real.sqrt ((List.foldl m48Update statsInit ss).sigmaSq : ℝ) =
      Real.sqrt (((ss.map (fun x => (x - ss.sum / (ss.length : ℚ)) ^ 2)).sum / (ss.length : ℚ) : ℚ) : ℝ) ∧
    (List.foldl m48Update statsInit ss).minv = ss.foldl min (999999/10) ∧
    (List.foldl m48Update statsInit ss).maxv = ss.foldl max (-999999/10) := by
  have hsamp : (List.foldl m48Update statsInit ss).samples = ss := by
    rw [foldl_update_samples]; rfl
  have hmean : (List.foldl m48Update statsInit ss).mean = ss.sum / (ss.length : ℚ) := by
    rcases ss.eq_nil_or_concat' with h | ⟨l, a, rfl⟩
    · exact absurd h hne
    · rw [List.foldl_append, List.foldl_cons, List.foldl_nil, m48Update_mean,
        foldl_update_samples]
      simp [statsInit]
  have hsig : (List.foldl m48Update statsInit ss).sigmaSq =
      (ss.map (fun x => (x - ss.sum / (ss.length : ℚ)) ^ 2)).sum / (ss.length : ℚ) := by
    rcases ss.eq_nil_or_concat' with h | ⟨l, a, rfl⟩
    · exact absurd h hne
    · rw [List.foldl_append, List.foldl_cons, List.foldl_nil, m48Update_sigmaSq,
        foldl_update_samples]
      simp [statsInit]
  refine ⟨hsamp, hmean, hsig, ?_, ?_, ?_⟩
  · rw [hsig]
  · rw [foldl_update_minv]; rfl
  · rw [foldl_update_maxv]; rfl

/-- Witness for C1_amended at the concrete sample list `[1, 2, 3]`. -/
theorem C1_witness :
    (List.foldl m48Update statsInit [1, 2, 3]).samples = [1, 2, 3] ∧
    (List.foldl m48Update statsInit [1, 2, 3]).mean =
      ([1, 2, 3] : List ℚ).sum / (([1, 2, 3] : List ℚ).length : ℚ) ∧
    (List.foldl m48Update statsInit [1, 2, 3]).sigmaSq =
      (([1, 2, 3] : List ℚ).map
        (fun x => (x - ([1, 2, 3] : List ℚ).sum / (([1, 2, 3] : List ℚ).length : ℚ)) ^ 2)).sum /
        (([1, 2, 3] : List ℚ).length : ℚ) ∧
    Real.sqrt (((List.foldl m48Update statsInit [1, 2, 3]).sigmaSq : ℚ) : ℝ) =
      Real.sqrt ((((([1, 2, 3] : List ℚ).map
        (fun x => (x - ([1, 2, 3] : List ℚ).sum / (([1, 2, 3] : List ℚ).length : ℚ)) ^ 2)).sum /
        (([1, 2, 3] : List ℚ).length : ℚ) : ℚ)) : ℝ) ∧
    (List.foldl m48Update statsInit [1, 2, 3]).minv = ([1, 2, 3] : List ℚ).foldl min (999999/10) ∧
    (List.foldl m48Update statsInit [1, 2, 3]).maxv = ([1, 2, 3] : List ℚ).foldl max (-999999/10) :=
  C1_amended [1, 2, 3] (by simp)

/-- Counterexample to C1 as stated: in a fully successful run of four samples
all equal to 100000 the reported min is the sentinel 99999.9, not the sample
minimum 100000 (and symmetrically the claim also fails for max with samples
below -99999.9). -/
theorem C1_cex :
    (List.foldl m48Update statsInit [100000, 100000, 100000, 100000]).minv = 999999/10 ∧
    ([100000, 100000, 100000, 100000] : List ℚ).foldl min 100000 = 100000 ∧
    ¬((999999/10 : ℚ) = 100000) := by
  refine ⟨?_, by norm_num, by norm_num⟩
  rw [foldl_update_minv]
  norm_num [statsInit]

/-- C9.  The running min and max start at the sentinels 99999.9 and -99999.9;
after any number of successful samples they equal the fold of `min` / `max`
over the samples from those sentinels, and when every sample lies strictly
inside (-99999.9, 99999.9) they are the true sample minimum and maximum. -/
theorem C9_thm (ss : List ℚ) (hne : ss ≠ [])
    (hin : ∀ s ∈ ss, -999999/10 < s ∧ s < 999999/10) :
    statsInit.minv = 999999/10 ∧ statsInit.maxv = -999999/10 ∧
    (List.foldl m48Update statsInit ss).minv = ss.foldl min (999999/10) ∧
    (List.foldl m48Update statsInit ss).maxv = ss.foldl max (-999999/10) ∧
    (List.foldl m48Update statsInit ss).minv ∈ ss ∧
    (∀ s ∈ ss, (List.foldl m48Update statsInit ss).minv ≤ s) ∧
    (List.foldl m48Update statsInit ss).maxv ∈ ss ∧
    (∀ s ∈ ss, s ≤ (List.foldl m48Update statsInit ss).maxv) := by
  have hmin : (List.foldl m48Update statsInit ss).minv = ss.foldl min (999999/10) := by
    rw [foldl_update_minv]; rfl
  have hmax : (List.foldl m48Update statsInit ss).maxv = ss.foldl max (-999999/10) := by
    rw [foldl_update_maxv]; rfl
  obtain ⟨a, t, rfl⟩ := List.exists_cons_of_ne_nil hne
  have hminmem : (a :: t).foldl min (999999/10) ∈ a :: t := by
    rcases foldl_min_mem_or (a :: t) (999999/10) with h | h
    · exfalso
      have h1 : (a :: t).foldl min (999999/10) ≤ a :=
        foldl_min_le_mem (a :: t) (999999/10) a (List.mem_cons_self a t)
      have h2 := (hin a (List.mem_cons_self a t)).2
      rw [h] at h1
      exact absurd (lt_of_le_of_lt h1 h2) (lt_irrefl _)
    · exact h
  have hmaxmem : (a :: t).foldl max (-999999/10) ∈ a :: t := by
    rcases foldl_max_mem_or (a :: t) (-999999/10) with h | h
    · exfalso
      have h1 : a ≤ (a :: t).foldl max (-999999/10) :=
        foldl_max_mem_le (a :: t) (-999999/10) a (List.mem_cons_self a t)
      have h2 := (hin a (List.mem_cons_self a t)).1
      rw [h] at h1
      exact absurd (lt_of_lt_of_le h2 h1) (lt_irrefl _)
    · exact h
  refine ⟨rfl, rfl, hmin, hmax, ?_, ?_, ?_, ?_⟩
  · rw [hmin]; exact hminmem
  · rw [hmin]; exact foldl_min_le_mem _ _
  · rw [hmax]; exact hmaxmem
  · rw [hmax]; exact foldl_max_mem_le _ _

/-- Witness for C9_thm at the concrete sample list `[2, 1, 3]`. -/
theorem C9_witness :
    statsInit.minv = 999999/10 ∧ statsInit.maxv = -999999/10 ∧
    (List.foldl m48Update statsInit [2, 1, 3]).minv = ([2, 1, 3] : List ℚ).foldl min (999999/10) ∧
    (List.foldl m48Update statsInit [2, 1, 3]).maxv = ([2, 1, 3] : List ℚ).foldl max (-999999/10) ∧
    (List.foldl m48Update statsInit [2, 1, 3]).minv ∈ ([2, 1, 3] : List ℚ) ∧
    (∀ s ∈ ([2, 1, 3] : List ℚ), (List.foldl m48Update statsInit [2, 1, 3]).minv ≤ s) ∧
    (List.foldl m48Update statsInit [2, 1, 3]).maxv ∈ ([2, 1, 3] : List ℚ) ∧
    (∀ s ∈ ([2, 1, 3] : List ℚ), s ≤ (List.foldl m48Update statsInit [2, 1, 3]).maxv) :=
  C9_thm [2, 1, 3] (by simp)
    (by intro s hs; fin_cases hs <;> constructor <;> norm_num)

/-! ### The angle-wrapping loops -/

lemma wrapDown_le (a : ℚ) : wrapDown a ≤ 360 := by
  induction a using wrapDown.induct with
  | case1 x h ih => rw [wrapDown, dif_pos h]; exact ih
  | case2 x h => rw [wrapDown, dif_neg h]; linarith

lemma wrapDown_congr (a : ℚ) : ∃ k : ℤ, wrapDown a = a - 360 * k := by
  induction a using wrapDown.induct with
  | case1 x h ih =>
    obtain ⟨k, hk⟩ := ih
    refine ⟨k + 1, ?_⟩
    rw [wrapDown, dif_pos h, hk]
    push_cast
    ring
  | case2 x h => exact ⟨0, by rw [wrapDown, dif_neg h]; push_cast; ring⟩

lemma wrapUp_nonneg (a : ℚ) : 0 ≤ wrapUp a := by
  induction a using wrapUp.induct with
  | case1 x h ih => rw [wrapUp, dif_pos h]; exact ih
  | case2 x h => rw [wrapUp, dif_neg h]; linarith

lemma wrapUp_le (a : ℚ) : a ≤ 360 → wrapUp a ≤ 360 := by
  induction a using wrapUp.induct with
  | case1 x h ih =>
    intro _
    rw [wrapUp, dif_pos h]
    exact ih (by linarith)
  | case2 x h =>
    intro hx
    rw [wrapUp, dif_neg h]
    exact hx

lemma wrapUp_congr (a : ℚ) : ∃ k : ℤ, wrapUp a = a + 360 * k := by
  induction a using wrapUp.induct with
  | case1 x h ih =>
    obtain ⟨k, hk⟩ := ih
    refine ⟨k + 1, ?_⟩
    rw [wrapUp, dif_pos h, hk]
    push_cast
    ring
  | case2 x h => exact ⟨0, by rw [wrapUp, dif_neg h]; push_cast; ring⟩

/-- C3, corrected.  The repeated plus/minus-360 adjustment of any angle value
terminates (in the model: `wrapAngle` is total, both loops having an explicit
decreasing measure) and yields a value congruent to the input modulo 360 that
lies in the closed interval [0, 360] — not the half-open [0, 360): the upper
loop runs only `while (angle > 360.0)`, so the value 360 itself survives. -/
theorem C3_amended (a : ℚ) :
    0 ≤ wrapAngle a ∧ wrapAngle a ≤ 360 ∧ ∃ k : ℤ, wrapAngle a - a = 360 * k := by
  refine ⟨wrapUp_nonneg _, wrapUp_le _ (wrapDown_le a), ?_⟩
  obtain ⟨k1, hk1⟩ := wrapDown_congr a
  obtain ⟨k2, hk2⟩ := wrapUp_congr (wrapDown a)
  refine ⟨k2 - k1, ?_⟩
  unfold wrapAngle
  rw [hk2, hk1]
  push_cast
  ring

/-- Counterexample to C3 as stated: for the angle value 720 the wrapping loops
stop at exactly 360, which does not lie in the half-open interval [0, 360). -/
theorem C3_cex : wrapAngle 720 = 360 ∧ ¬(wrapAngle 720 < 360) := by
  have h : wrapAngle 720 = 360 := by
    unfold wrapAngle
    rw [wrapDown]
    norm_num
    rw [wrapDown]
    norm_num
    rw [wrapUp]
    norm_num
  exact ⟨h, by rw [h]; norm_num⟩

/-! ### The direction draw -/

/-- C5, corrected.  The direction pick `(random(0, 10) > 5.0) ? -1 : 1` maps
the ten equally likely raw outcomes 0..9 of `random(0, 10)` to -1 for exactly
four of them (6, 7, 8, 9) and to +1 for the remaining six — a 40/60 split,
not a uniform draw from \x7b-1, +1\x7d. -/
theorem C5_amended :
    ((Finset.range 10).filter (fun r => dirDraw (randIn 0 10 r) = -1)).card = 4 ∧
    ((Finset.range 10).filter (fun r => dirDraw (randIn 0 10 r) = 1)).card = 6 := by
  decide

/-- Counterexample to C5 as stated: the two outcomes do not get the same
number of raw draws. -/
theorem C5_cex :
    ¬(((Finset.range 10).filter (fun r => dirDraw (randIn 0 10 r) = -1)).card =
      ((Finset.range 10).filter (fun r => dirDraw (randIn 0 10 r) = 1)).card) := by
  decide

/-! ### Legs normalization -/

/-- C6.  The legs value handed to the sample loop (`gcode_M48` passes
`effectiveLegs p.L p.S` to `runCore` before any sampling) is 2 when the
request supplied legs = 1, is 7 when the schizoid flag is set and legs was
not supplied, and otherwise is the supplied value, defaulting to 0. -/
theorem C6_thm (L : Option ℕ) (S : Bool) :
    effectiveLegs L S =
      if L = some 1 then 2
      else if S = true ∧ L = none then 7
      else L.getD 0 := by
  cases L with
  | none => cases S <;> simp [effectiveLegs]
  | some n =>
    by_cases hn : n = 1 <;> simp [effectiveLegs, hn]

/-! ### The DELTA reachability-correction loop -/

lemma pullIn_reaches (reach : ℚ → ℚ → Bool) :
    ∀ (m : ℕ) (x y : ℚ), reach ((0.8 : ℚ) ^ m * x) ((0.8 : ℚ) ^ m * y) = true →
      ∃ q, pullIn reach m x y = some q ∧ reach q.1 q.2 = true := by
  intro m
  induction m with
  | zero =>
    intro x y h
    rw [pow_zero, one_mul, one_mul] at h
    exact ⟨(x, y), by simp [pullIn, h], h⟩
  | succ m ih =>
    intro x y h
    cases hxy : reach x y with
    | true => exact ⟨(x, y), by simp [pullIn, hxy], hxy⟩
    | false =>
      have h' : reach ((0.8 : ℚ) ^ m * (0.8 * x)) ((0.8 : ℚ) ^ m * (0.8 * y)) = true := by
        have e1 : (0.8 : ℚ) ^ m * (0.8 * x) = (0.8 : ℚ) ^ (m + 1) * x := by ring
        have e2 : (0.8 : ℚ) ^ m * (0.8 * y) = (0.8 : ℚ) ^ (m + 1) * y := by ring
        rw [e1, e2]
        exact h
      obtain ⟨q, hq, hr⟩ := ih (0.8 * x) (0.8 * y) h'
      exact ⟨q, by simp [pullIn, hxy, hq], hr⟩

/-- C8.  For center-pivoted kinematics with a positive probe radius, from any
candidate waypoint the 0.8-scale-down correction loop reaches a probe-reachable
point within a bounded number of steps: some finite fuel makes `pullIn` return
a reachable point.  This holds for every starting point, hence in particular
for every waypoint built from a radius drawn from the configured range. -/
theorem C8_thm (R : ℚ) (hR : 0 < R) (x y : ℚ) :
    ∃ fuel q, pullIn (deltaReachable R) fuel x y = some q ∧
      deltaReachable R q.1 q.2 = true := by
  have key : ∃ n : ℕ, ((0.8 : ℚ) ^ n * x) ^ 2 + ((0.8 : ℚ) ^ n * y) ^ 2 ≤ R ^ 2 := by
    rcases le_or_lt (x ^ 2 + y ^ 2) (R ^ 2) with hd | hd
    · exact ⟨0, by rw [pow_zero, one_mul, one_mul]; exact hd⟩
    · have hpos : (0 : ℚ) < x ^ 2 + y ^ 2 := lt_trans (pow_pos hR 2) hd
      have hε : (0 : ℚ) < R ^ 2 / (x ^ 2 + y ^ 2) := div_pos (pow_pos hR 2) hpos
      obtain ⟨n, hn⟩ := exists_pow_lt_of_lt_one hε (by norm_num : ((0.8 : ℚ) ^ 2) < 1)
      refine ⟨n, ?_⟩
      have h1 : ((0.8 : ℚ) ^ 2) ^ n * (x ^ 2 + y ^ 2) < R ^ 2 :=
        (lt_div_iff₀ hpos).mp hn
      have e : ((0.8 : ℚ) ^ n * x) ^ 2 + ((0.8 : ℚ) ^ n * y) ^ 2 =
          ((0.8 : ℚ) ^ 2) ^ n * (x ^ 2 + y ^ 2) := by
        rw [mul_pow, mul_pow, ← pow_mul, ← pow_mul, mul_comm n 2]
        ring
      rw [e]
      exact le_of_lt h1
  obtain ⟨n, hn⟩ := key
  have hreach : deltaReachable R ((0.8 : ℚ) ^ n * x) ((0.8 : ℚ) ^ n * y) = true := by
    simp only [deltaReachable, decide_eq_true_eq]
    exact hn
  obtain ⟨q, hq, hr⟩ := pullIn_reaches (deltaReachable R) n x y hreach
  exact ⟨n, q, hq, hr⟩

/-- Witness for C8_thm: probe radius 1, candidate waypoint (3, 4). -/
theorem C8_witness :
    ∃ fuel q, pullIn (deltaReachable 1) fuel 3 4 = some q ∧
      deltaReachable 1 q.1 q.2 = true :=
  C8_thm 1 (by norm_num) 3 4

/-! ### Trace bookkeeping -/

lemma countP_append (p : Ev → Bool) (a b : List Ev) :
    countP p (a ++ b) = countP p a + countP p b := by
  simp [countP, List.filter_append]

lemma countP_eq_zero (p : Ev → Bool) (t : List Ev) (h : ∀ e ∈ t, p e = false) :
    countP p t = 0 := by
  induction t with
  | nil => rfl
  | cons a t ih =>
    have ha := h a (List.mem_cons_self a t)
    simp only [countP, List.filter_cons, ha, Bool.false_eq_true, if_false]
    exact ih (fun e he => h e (List.mem_cons_of_mem a he))

lemma isMoveTo_not_probeRead (e : Ev) (h : e.isMoveTo = true) :
    e.isProbeRead = false := by
  cases e <;> simp_all [Ev.isMoveTo, Ev.isProbeRead]

lemma isMoveTo_loopEv (e : Ev) (h : e.isMoveTo = true) : e.isLoopEv = true := by
  cases e <;> simp_all [Ev.isMoveTo, Ev.isLoopEv]

lemma legsPhase_shape (env : Env) (cfg : Cfg) (dir : ℤ) (radius : ℚ) :
    ∀ (l : ℕ) (angle : ℚ) (ri : ℕ) (evs : List Ev) (res : ℕ × List Ev),
      legsPhase env cfg dir radius l angle ri evs = some res →
      ∃ t, res.2 = evs ++ t ∧ ∀ e ∈ t, e.isMoveTo = true := by
  intro l
  induction l with
  | zero =>
    intro angle ri evs res h
    simp only [legsPhase] at h
    cases h
    exact ⟨[], by simp, by simp⟩
  | succ l ih =>
    intro angle ri evs res h
    simp only [legsPhase] at h
    split at h
    · -- DELTA branch: split again on the pull-in loop result
      split at h
      · exact Option.noConfusion h
      · obtain ⟨t, ht, hall⟩ := ih _ _ _ _ h
        refine ⟨_, by rw [ht, List.append_assoc], ?_⟩
        intro e he
        rcases List.mem_append.mp he with he | he
        · rcases List.mem_singleton.mp he with rfl
          rfl
        · exact hall e he
    · -- cartesian branch
      obtain ⟨t, ht, hall⟩ := ih _ _ _ _ h
      refine ⟨_, by rw [ht, List.append_assoc], ?_⟩
      intro e he
      rcases List.mem_append.mp he with he | he
      · rcases List.mem_singleton.mp he with rfl
        rfl
      · exact hall e he

lemma legsStep_shape (env : Env) (cfg : Cfg) (ri : ℕ) (evs : List Ev)
    (res : ℕ × List Ev) (h : legsStep env cfg ri evs = some res) :
    ∃ t, res.2 = evs ++ t ∧ ∀ e ∈ t, e.isMoveTo = true := by
  unfold legsStep at h
  split at h
  · cases h
    exact ⟨[], by simp, by simp⟩
  · exact legsPhase_shape env cfg _ _ _ _ _ _ _ h

lemma progressEvs_shape (cfg : Cfg) (n : ℕ) (z : ℚ) (st : Stats) :
    ∀ e ∈ progressEvs cfg n z st, e.isLoopEv = true ∧ e.isProbeRead = false := by
  intro e he
  unfold progressEvs at he
  split at he
  · rcases List.mem_append.mp he with he | he
    · rcases List.mem_singleton.mp he with rfl
      exact ⟨rfl, rfl⟩
    · split at he
      · rcases List.mem_singleton.mp he with rfl
        exact ⟨rfl, rfl⟩
      · cases he
  · cases he

lemma sampleLoop_shape (env : Env) (cfg : Cfg) :
    ∀ (rem n ri reads : ℕ) (st : Stats) (evs : List Ev) (g : Bool) (st' : Stats)
      (evs' : List Ev) (reads' : ℕ),
      sampleLoop env cfg rem n ri reads st evs = some (g, st', evs', reads') →
      ∃ t, evs' = evs ++ t ∧ (∀ e ∈ t, e.isLoopEv = true) ∧
        countP Ev.isProbeRead t = reads' - reads ∧ reads ≤ reads' := by
  intro rem
  induction rem with
  | zero =>
    intro n ri reads st evs g st' evs' reads' h
    simp only [sampleLoop, Option.some.injEq, Prod.mk.injEq] at h
    obtain ⟨rfl, rfl, rfl, rfl⟩ := h
    exact ⟨[], by simp, by simp, by simp [countP], le_refl _⟩
  | succ rem ih =>
    intro n ri reads st evs g st' evs' reads' h
    simp only [sampleLoop] at h
    split at h
    · exact Option.noConfusion h
    · rename_i ri1 evs1 heq1
      obtain ⟨t1, ht1, hm1⟩ := legsStep_shape env cfg ri evs _ heq1
      simp only at ht1
      split at h
      · -- the probe read failed: the loop stops here
        simp only [Option.some.injEq, Prod.mk.injEq] at h
        obtain ⟨rfl, rfl, rfl, rfl⟩ := h
        refine ⟨t1 ++ [Ev.probeRead reads], by rw [ht1, List.append_assoc], ?_, ?_, by omega⟩
        · intro e he
          rcases List.mem_append.mp he with he | he
          · exact isMoveTo_loopEv e (hm1 e he)
          · rcases List.mem_singleton.mp he with rfl
            rfl
        · rw [countP_append,
            countP_eq_zero _ _ (fun e he => isMoveTo_not_probeRead e (hm1 e he))]
          have h1 : countP Ev.isProbeRead [Ev.probeRead reads] = 1 := rfl
          rw [h1]
          omega
      · -- successful read: recurse
        rename_i z heq2
        obtain ⟨t2, ht2, hl2, hc2, hle2⟩ := ih _ _ _ _ _ _ _ _ _ h
        refine ⟨t1 ++ [Ev.probeRead reads] ++ progressEvs cfg n z (m48Update st z) ++ t2,
          ?_, ?_, ?_, by omega⟩
        · rw [ht2, ht1]
          simp
        · intro e he
          rcases List.mem_append.mp he with he | he
          · rcases List.mem_append.mp he with he | he
            · rcases List.mem_append.mp he with he | he
              · exact isMoveTo_loopEv e (hm1 e he)
              · rcases List.mem_singleton.mp he with rfl
                rfl
            · exact (progressEvs_shape cfg n z _ e he).1
          · exact hl2 e he
        · rw [countP_append, countP_append, countP_append,
            countP_eq_zero _ _ (fun e he => isMoveTo_not_probeRead e (hm1 e he)),
            countP_eq_zero _ _ (fun e he => (progressEvs_shape cfg n z _ e he).2), hc2]
          have h1 : countP Ev.isProbeRead [Ev.probeRead reads] = 1 := rfl
          rw [h1]
          omega

lemma sampleLoop_stats (env : Env) (cfg : Cfg) :
    ∀ (rem n ri reads : ℕ) (st : Stats) (evs : List Ev) (g : Bool) (st' : Stats)
      (evs' : List Ev) (reads' : ℕ),
      sampleLoop env cfg rem n ri reads st evs = some (g, st', evs', reads') →
      st' = List.foldl m48Update st (succReads env.readings reads rem) := by
  intro rem
  induction rem with
  | zero =>
    intro n ri reads st evs g st' evs' reads' h
    simp only [sampleLoop, Option.some.injEq, Prod.mk.injEq] at h
    obtain ⟨rfl, rfl, rfl, rfl⟩ := h
    rfl
  | succ rem ih =>
    intro n ri reads st evs g st' evs' reads' h
    simp only [sampleLoop] at h
    split at h
    · exact Option.noConfusion h
    · rename_i ri1 evs1 heq1
      split at h
      · rename_i heq2
        simp only [Option.some.injEq, Prod.mk.injEq] at h
        obtain ⟨rfl, rfl, rfl, rfl⟩ := h
        simp [succReads, heq2]
      · rename_i z heq2
        have := ih _ _ _ _ _ _ _ _ _ h
        simp [succReads, heq2, this]

lemma sampleLoop_fail (env : Env) (cfg : Cfg) :
    ∀ (rem n ri reads : ℕ) (st : Stats) (evs : List Ev) (g : Bool) (st' : Stats)
      (evs' : List Ev) (reads' : ℕ) (i : ℕ),
      reads ≤ i → i < reads + rem → env.readings i = none →
      (∀ j, reads ≤ j → j < i → (env.readings j).isSome = true) →
      sampleLoop env cfg rem n ri reads st evs = some (g, st', evs', reads') →
      g = false ∧ reads' = i + 1 := by
  intro rem
  induction rem with
  | zero =>
    intro n ri reads st evs g st' evs' reads' i h1 h2 _ _ _
    omega
  | succ rem ih =>
    intro n ri reads st evs g st' evs' reads' i h1 h2 hnone hpre h
    simp only [sampleLoop] at h
    split at h
    · exact Option.noConfusion h
    · rename_i ri1 evs1 heq1
      split at h
      · rename_i heq2
        simp only [Option.some.injEq, Prod.mk.injEq] at h
        obtain ⟨rfl, rfl, rfl, rfl⟩ := h
        -- the read at index `reads` failed; by the prefix hypothesis i = reads
        rcases Nat.eq_or_lt_of_le h1 with rfl | hlt
        · exact ⟨rfl, rfl⟩
        · have := hpre reads (le_refl reads) hlt
          rw [heq2] at this
          cases this
      · rename_i z heq2
        -- the read at index `reads` succeeded, so i > reads
        rcases Nat.eq_or_lt_of_le h1 with rfl | hlt
        · rw [heq2] at hnone
          cases hnone
        · exact ih _ _ _ _ _ _ _ _ _ _ hlt (by omega) hnone
            (fun j hj1 hj2 => hpre j (by omega) hj2) h

lemma sampleLoop_success (env : Env) (cfg : Cfg) :
    ∀ (rem n ri reads : ℕ) (st : Stats) (evs : List Ev) (g : Bool) (st' : Stats)
      (evs' : List Ev) (reads' : ℕ),
      (∀ j, reads ≤ j → j < reads + rem → (env.readings j).isSome = true) →
      sampleLoop env cfg rem n ri reads st evs = some (g, st', evs', reads') →
      g = true ∧ reads' = reads + rem := by
  intro rem
  induction rem with
  | zero =>
    intro n ri reads st evs g st' evs' reads' _ h
    simp only [sampleLoop, Option.some.injEq, Prod.mk.injEq] at h
    obtain ⟨rfl, rfl, rfl, rfl⟩ := h
    exact ⟨rfl, rfl⟩
  | succ rem ih =>
    intro n ri reads st evs g st' evs' reads' hall h
    simp only [sampleLoop] at h
    split at h
    · exact Option.noConfusion h
    · rename_i ri1 evs1 heq1
      split at h
      · rename_i heq2
        have := hall reads (le_refl reads) (by omega)
        rw [heq2] at this
        cases this
      · rename_i z heq2
        have := ih _ _ _ _ _ _ _ _ _
          (fun j hj1 hj2 => hall j (by omega) (by omega)) h
        exact ⟨this.1, by omega⟩

/-! ### Unfolding the validated run -/

lemma gcode_valid (p : Params) (env : Env) (hh : env.homed = true)
    (hv : 0 ≤ p.V.getD 1 ∧ p.V.getD 1 ≤ 4)
    (hp : 4 ≤ p.P.getD 10 ∧ p.P.getD 10 ≤ 50)
    (hr : env.reachable (p.X.getD (env.curX + env.offX))
      (p.Y.getD (env.curY + env.offY)) = true)
    (hl : p.L.getD 0 ≤ 15) :
    gcode_M48 p env =
      runCore env (p.V.getD 1) (p.P.getD 10).toNat (effectiveLegs p.L p.S) p.S
        (p.X.getD (env.curX + env.offX)) (p.Y.getD (env.curY + env.offY)) := by
  unfold gcode_M48
  rw [if_neg (by simp [hh]), if_neg (not_not_intro hv), if_neg (not_not_intro hp),
    if_neg (by simp [hr]), if_neg (not_lt.mpr hl)]

lemma countP_headerEvs (p : Ev → Bool) (v : ℤ) (h : p Ev.headerMsg = false) :
    countP p (headerEvs v) = 0 := by
  unfold headerEvs
  split
  · simp [countP, List.filter_singleton, h]
  · rfl

lemma countP_preEvs (p : Ev → Bool) (v : ℤ) (hh : p Ev.headerMsg = false)
    (hp : p Ev.posMsg = false) :
    countP p (preEvs v) = countP p [Ev.levelingOff, Ev.setupMove, Ev.probeRead 0] := by
  unfold preEvs
  rw [countP_append, countP_append, countP_headerEvs p v hh]
  have h2 : countP p (if 2 < v then [Ev.posMsg] else []) = 0 := by
    split
    · simp [countP, List.filter_singleton, hp]
    · rfl
  rw [h2]
  simp

lemma loopEv_false (e : Ev) (h : e.isLoopEv = true) :
    e.isStow = false ∧ e.isFinished = false ∧ e.isLevelRestore = false ∧
    e.isReportPos = false ∧ e.isReportMMM = false ∧ e.isReportSigma = false ∧
    e.isMechanical = (e.isProbeRead || e.isMoveTo) := by
  cases e <;> simp_all [Ev.isLoopEv, Ev.isStow, Ev.isFinished, Ev.isLevelRestore,
    Ev.isReportPos, Ev.isReportMMM, Ev.isReportSigma, Ev.isMechanical,
    Ev.isProbeRead, Ev.isMoveTo]

lemma countP_summary_sigma (v : ℤ) (st : Stats) :
    countP Ev.isReportSigma (summaryEvs v st) = 1 := by
  unfold summaryEvs
  by_cases h0 : 0 < v <;> simp only [h0, if_true, if_false] <;> rfl

lemma countP_summary_mmm (v : ℤ) (st : Stats) :
    countP Ev.isReportMMM (summaryEvs v st) = if 0 < v then 1 else 0 := by
  unfold summaryEvs
  by_cases h0 : 0 < v <;> simp only [h0, if_true, if_false] <;> rfl

lemma countP_summary_finished (v : ℤ) (st : Stats) :
    countP Ev.isFinished (summaryEvs v st) = 1 := by
  unfold summaryEvs
  by_cases h0 : 0 < v <;> simp only [h0, if_true, if_false] <;> rfl

lemma countP_summary_zero (p : Ev → Bool) (v : ℤ) (st : Stats)
    (hf : p Ev.finished = false)
    (hm : p (Ev.reportMeanMinMax st.mean st.minv st.maxv (st.maxv - st.minv)) = false)
    (hs : p (Ev.reportSigmaSq st.sigmaSq) = false) :
    countP p (summaryEvs v st) = 0 := by
  unfold summaryEvs
  rw [countP_append, countP_append]
  have h1 : countP p [Ev.finished] = 0 := by simp [countP, List.filter_singleton, hf]
  have h2 : countP p (if 0 < v then
      [Ev.reportMeanMinMax st.mean st.minv st.maxv (st.maxv - st.minv)] else []) = 0 := by
    split
    · simp [countP, List.filter_singleton, hm]
    · rfl
  have h3 : countP p [Ev.reportSigmaSq st.sigmaSq] = 0 := by
    simp [countP, List.filter_singleton, hs]
  rw [h1, h2, h3]

/-! ### C4: behaviour on probe failure -/

/-- C4.  In a validated, homed run whose `i`-th probe read (0 being the
initial deployment probe, 1..sample-count the loop reads) fails after `i`
successful ones, the run completes with `probing_good = false`, exactly
`i + 1` probe reads are ever issued (no later sample is attempted), the final
statistics summary is absent, and probe stow, leveling restore and the
position report each occur exactly once. -/
theorem C4_thm (p : Params) (env : Env)
    (hh : env.homed = true)
    (hv : 0 ≤ p.V.getD 1 ∧ p.V.getD 1 ≤ 4)
    (hp : 4 ≤ p.P.getD 10 ∧ p.P.getD 10 ≤ 50)
    (hr : env.reachable (p.X.getD (env.curX + env.offX))
      (p.Y.getD (env.curY + env.offY)) = true)
    (hl : p.L.getD 0 ≤ 15)
    (i : ℕ) (hi : i ≤ (p.P.getD 10).toNat)
    (hnone : env.readings i = none)
    (hpre : ∀ j, j < i → (env.readings j).isSome = true)
    (hterm : (gcode_M48 p env).isSome = true) :
    runGood p env = false ∧
    countP Ev.isProbeRead (runEvs p env) = i + 1 ∧
    countP Ev.isStow (runEvs p env) = 1 ∧
    countP Ev.isLevelRestore (runEvs p env) = 1 ∧
    countP Ev.isReportPos (runEvs p env) = 1 ∧
    countP Ev.isFinished (runEvs p env) = 0 ∧
    countP Ev.isReportMMM (runEvs p env) = 0 ∧
    countP Ev.isReportSigma (runEvs p env) = 0 := by
  have hg := gcode_valid p env hh hv hp hr hl
  cases h0 : env.readings 0 with
  | none =>
    have hi0 : i = 0 := by
      by_contra hne
      have := hpre 0 (by omega)
      rw [h0] at this
      cases this
    subst hi0
    have hrc : gcode_M48 p env = some ⟨preEvs (p.V.getD 1) ++
        [Ev.stow, Ev.cleanup, Ev.levelingRestore, Ev.reportPos], statsInit, false⟩ := by
      rw [hg]
      unfold runCore
      rw [h0]
    simp only [runGood, runEvs, hrc]
    refine ⟨trivial, ?_, ?_, ?_, ?_, ?_, ?_, ?_⟩ <;>
      rw [countP_append, countP_preEvs _ _ rfl rfl] <;> rfl
  | some t0 =>
    have hi0 : 1 ≤ i := by
      rcases Nat.eq_zero_or_pos i with rfl | h
      · rw [h0] at hnone
        cases hnone
      · exact h
    cases hsl : sampleLoop env ⟨p.V.getD 1, effectiveLegs p.L p.S, p.S,
        p.X.getD (env.curX + env.offX), p.Y.getD (env.curY + env.offY)⟩
        (p.P.getD 10).toNat 0 0 1 statsInit (preEvs (p.V.getD 1)) with
    | none =>
      exfalso
      rw [hg] at hterm
      unfold runCore at hterm
      rw [h0, hsl] at hterm
      cases hterm
    | some r =>
      obtain ⟨g, st, evs2, rd⟩ := r
      obtain ⟨hgf, hrd⟩ := sampleLoop_fail env _ _ _ _ _ _ _ _ _ _ _ i hi0
        (by omega) hnone (fun j _ hj2 => hpre j hj2) hsl
      subst hgf
      obtain ⟨t, ht, hloop, hcnt, hle⟩ := sampleLoop_shape env _ _ _ _ _ _ _ _ _ _ _ hsl
      have hrc : gcode_M48 p env = some ⟨evs2 ++ [Ev.stow] ++ [] ++
          [Ev.cleanup, Ev.levelingRestore, Ev.reportPos], st, false⟩ := by
        rw [hg]
        unfold runCore
        rw [h0, hsl]
        rfl
      have hcnt' : countP Ev.isProbeRead t = i := by omega
      simp only [runGood, runEvs, hrc]
      refine ⟨trivial, ?_, ?_, ?_, ?_, ?_, ?_, ?_⟩ <;>
        rw [ht] <;>
        simp only [countP_append] <;>
        rw [countP_preEvs _ _ rfl rfl]
      · rw [hcnt']
        simp [countP, List.filter_cons, Ev.isProbeRead, Ev.isStow, Ev.isFinished, Ev.isLevelRestore, Ev.isReportPos, Ev.isReportMMM, Ev.isReportSigma]
        try omega
      · rw [countP_eq_zero _ _ (fun e he => (loopEv_false e (hloop e he)).1)]
        rfl
      · rw [countP_eq_zero _ _ (fun e he => (loopEv_false e (hloop e he)).2.2.1)]
        rfl
      · rw [countP_eq_zero _ _ (fun e he => (loopEv_false e (hloop e he)).2.2.2.1)]
        rfl
      · rw [countP_eq_zero _ _ (fun e he => (loopEv_false e (hloop e he)).2.1)]
        rfl
      · rw [countP_eq_zero _ _ (fun e he => (loopEv_false e (hloop e he)).2.2.2.2.1)]
        rfl
      · rw [countP_eq_zero _ _ (fun e he => (loopEv_false e (hloop e he)).2.2.2.2.2.1)]
        rfl

/-! ### C7: the final summary block -/

/-- C7, corrected.  In a validated, homed run in which every probe read
succeeds, the run ends with `probing_good = true` and emits the `Finished!`
line and the standard-deviation line exactly once for every verbose level in
[0, 4]; the final mean / min / max / range line, however, is emitted exactly
once when the verbose level is at least 1 and not at all at verbose level 0
(`if (verbose_level > 0)` guards it in m48.h lines 244-250). -/
theorem C7_amended (p : Params) (env : Env)
    (hh : env.homed = true)
    (hv : 0 ≤ p.V.getD 1 ∧ p.V.getD 1 ≤ 4)
    (hp : 4 ≤ p.P.getD 10 ∧ p.P.getD 10 ≤ 50)
    (hr : env.reachable (p.X.getD (env.curX + env.offX))
      (p.Y.getD (env.curY + env.offY)) = true)
    (hl : p.L.getD 0 ≤ 15)
    (hall : ∀ j, j ≤ (p.P.getD 10).toNat → (env.readings j).isSome = true)
    (hterm : (gcode_M48 p env).isSome = true) :
    runGood p env = true ∧
    countP Ev.isFinished (runEvs p env) = 1 ∧
    countP Ev.isReportSigma (runEvs p env) = 1 ∧
    countP Ev.isReportMMM (runEvs p env) = (if 0 < p.V.getD 1 then 1 else 0) ∧
    countP Ev.isStow (runEvs p env) = 1 ∧
    countP Ev.isLevelRestore (runEvs p env) = 1 ∧
    countP Ev.isReportPos (runEvs p env) = 1 := by
  have hg := gcode_valid p env hh hv hp hr hl
  cases h0 : env.readings 0 with
  | none =>
    exfalso
    have := hall 0 (by omega)
    rw [h0] at this
    cases this
  | some t0 =>
    cases hsl : sampleLoop env ⟨p.V.getD 1, effectiveLegs p.L p.S, p.S,
        p.X.getD (env.curX + env.offX), p.Y.getD (env.curY + env.offY)⟩
        (p.P.getD 10).toNat 0 0 1 statsInit (preEvs (p.V.getD 1)) with
    | none =>
      exfalso
      rw [hg] at hterm
      unfold runCore at hterm
      rw [h0, hsl] at hterm
      cases hterm
    | some r =>
      obtain ⟨g, st, evs2, rd⟩ := r
      obtain ⟨hgt, _⟩ := sampleLoop_success env _ _ _ _ _ _ _ _ _ _ _
        (fun j hj1 hj2 => hall j (by omega)) hsl
      subst hgt
      obtain ⟨t, ht, hloop, _, _⟩ := sampleLoop_shape env _ _ _ _ _ _ _ _ _ _ _ hsl
      have hrc : gcode_M48 p env = some ⟨evs2 ++ [Ev.stow] ++
          summaryEvs (p.V.getD 1) st ++
          [Ev.cleanup, Ev.levelingRestore, Ev.reportPos], st, true⟩ := by
        rw [hg]
        unfold runCore
        rw [h0, hsl]
        rfl
      simp only [runGood, runEvs, hrc]
      refine ⟨trivial, ?_, ?_, ?_, ?_, ?_, ?_⟩ <;>
        rw [ht] <;>
        simp only [countP_append] <;>
        rw [countP_preEvs _ _ rfl rfl]
      · rw [countP_eq_zero _ _ (fun e he => (loopEv_false e (hloop e he)).2.1),
          countP_summary_finished]
        rfl
      · rw [countP_eq_zero _ _ (fun e he => (loopEv_false e (hloop e he)).2.2.2.2.2.1),
          countP_summary_sigma]
        rfl
      · rw [countP_eq_zero _ _ (fun e he => (loopEv_false e (hloop e he)).2.2.2.2.1),
          countP_summary_mmm]
        split <;> rfl
      · rw [countP_eq_zero _ _ (fun e he => (loopEv_false e (hloop e he)).1),
          countP_summary_zero _ _ _ rfl rfl rfl]
        rfl
      · rw [countP_eq_zero _ _ (fun e he => (loopEv_false e (hloop e he)).2.2.1),
          countP_summary_zero _ _ _ rfl rfl rfl]
        rfl
      · rw [countP_eq_zero _ _ (fun e he => (loopEv_false e (hloop e he)).2.2.2.1),
          countP_summary_zero _ _ _ rfl rfl rfl]
        rfl

/-! ### C10: the initial deployment probe is not a sample -/

/-- C10.  In a validated, homed, terminating run the final statistics are the
fold of the accumulator update over exactly the loop readings (probe calls
1 .. sample-count, truncated at the first failure); the initial deployment
reading (probe call 0) never enters the statistics — it only decides whether
the sample loop starts at all, the state staying `statsInit` when it fails. -/
theorem C10_thm (p : Params) (env : Env)
    (hh : env.homed = true)
    (hv : 0 ≤ p.V.getD 1 ∧ p.V.getD 1 ≤ 4)
    (hp : 4 ≤ p.P.getD 10 ∧ p.P.getD 10 ≤ 50)
    (hr : env.reachable (p.X.getD (env.curX + env.offX))
      (p.Y.getD (env.curY + env.offY)) = true)
    (hl : p.L.getD 0 ≤ 15)
    (hterm : (gcode_M48 p env).isSome = true) :
    runStats p env =
      if (env.readings 0).isSome then
        List.foldl m48Update statsInit
          (succReads env.readings 1 (p.P.getD 10).toNat)
      else statsInit := by
  have hg := gcode_valid p env hh hv hp hr hl
  cases h0 : env.readings 0 with
  | none =>
    have hrc : gcode_M48 p env = some ⟨preEvs (p.V.getD 1) ++
        [Ev.stow, Ev.cleanup, Ev.levelingRestore, Ev.reportPos], statsInit, false⟩ := by
      rw [hg]
      unfold runCore
      rw [h0]
    simp only [runStats, hrc, h0, Option.isSome_none, Bool.false_eq_true, if_false]
  | some t0 =>
    cases hsl : sampleLoop env ⟨p.V.getD 1, effectiveLegs p.L p.S, p.S,
        p.X.getD (env.curX + env.offX), p.Y.getD (env.curY + env.offY)⟩
        (p.P.getD 10).toNat 0 0 1 statsInit (preEvs (p.V.getD 1)) with
    | none =>
      exfalso
      rw [hg] at hterm
      unfold runCore at hterm
      rw [h0, hsl] at hterm
      cases hterm
    | some r =>
      obtain ⟨g, st, evs2, rd⟩ := r
      have hst := sampleLoop_stats env _ _ _ _ _ _ _ _ _ _ _ hsl
      have hrc : gcode_M48 p env = some ⟨evs2 ++ [Ev.stow] ++
          (if g then summaryEvs (p.V.getD 1) st else []) ++
          [Ev.cleanup, Ev.levelingRestore, Ev.reportPos], st, g⟩ := by
        rw [hg]
        unfold runCore
        rw [h0, hsl]
      simp only [runStats, hrc, h0, Option.isSome_some, if_true]
      exact hst

/-! ### C2: fail-fast validation -/

/-- C2, corrected.  A homed request with an out-of-range verbose level,
sample count or legs value aborts with the final statistics untouched and
with zero mechanical side effects of any kind (no motion, no probe read, no
probe stow, no endstop setup and no bed-leveling change), and the last serial
line names the first failed gate in source order — verbose level, sample
count, target reachability, legs.  In particular the reported message is the
legs `InvalidParameter` only when the earlier gates (including reachability)
passed; an unreachable target reports `OutOfBounds` even when legs is also
out of range. -/
theorem C2_amended (p : Params) (env : Env) (hh : env.homed = true)
    (hbad : ¬(0 ≤ p.V.getD 1 ∧ p.V.getD 1 ≤ 4) ∨
      ¬(4 ≤ p.P.getD 10 ∧ p.P.getD 10 ≤ 50) ∨ 15 < p.L.getD 0) :
    countP Ev.isMechanical (runEvs p env) = 0 ∧
    runStats p env = statsInit ∧
    (runEvs p env).getLast? = some
      (if ¬(0 ≤ p.V.getD 1 ∧ p.V.getD 1 ≤ 4) then Ev.errVerbose
       else if ¬(4 ≤ p.P.getD 10 ∧ p.P.getD 10 ≤ 50) then Ev.errSamples
       else if env.reachable (p.X.getD (env.curX + env.offX))
           (p.Y.getD (env.curY + env.offY)) = false then Ev.errOutOfBounds
       else Ev.errLegs) := by
  by_cases hv : 0 ≤ p.V.getD 1 ∧ p.V.getD 1 ≤ 4
  · by_cases hps : 4 ≤ p.P.getD 10 ∧ p.P.getD 10 ≤ 50
    · have hlegs : 15 < p.L.getD 0 := by tauto
      cases hre : env.reachable (p.X.getD (env.curX + env.offX))
          (p.Y.getD (env.curY + env.offY)) with
      | false =>
        have hrc : gcode_M48 p env =
            some ⟨headerEvs (p.V.getD 1) ++ [Ev.errOutOfBounds], statsInit, true⟩ := by
          unfold gcode_M48
          rw [if_neg (by simp [hh]), if_neg (not_not_intro hv),
            if_neg (not_not_intro hps), if_pos hre]
        simp only [runEvs, runStats, hrc]
        refine ⟨?_, trivial, ?_⟩
        · rw [countP_append, countP_headerEvs _ _ rfl]
          rfl
        · rw [if_neg (not_not_intro hv), if_neg (not_not_intro hps)]
          simp [List.getLast?_concat]
      | true =>
        have hrc : gcode_M48 p env =
            some ⟨headerEvs (p.V.getD 1) ++ [Ev.errLegs], statsInit, true⟩ := by
          unfold gcode_M48
          rw [if_neg (by simp [hh]), if_neg (not_not_intro hv),
            if_neg (not_not_intro hps), if_neg (by simp [hre]), if_pos hlegs]
        simp only [runEvs, runStats, hrc]
        refine ⟨?_, trivial, ?_⟩
        · rw [countP_append, countP_headerEvs _ _ rfl]
          rfl
        · rw [if_neg (not_not_intro hv), if_neg (not_not_intro hps)]
          simp [List.getLast?_concat]
    · have hrc : gcode_M48 p env =
          some ⟨headerEvs (p.V.getD 1) ++ [Ev.errSamples], statsInit, true⟩ := by
        unfold gcode_M48
        rw [if_neg (by simp [hh]), if_neg (not_not_intro hv), if_pos hps]
      simp only [runEvs, runStats, hrc]
      refine ⟨?_, trivial, ?_⟩
      · rw [countP_append, countP_headerEvs _ _ rfl]
        rfl
      · rw [if_neg (not_not_intro hv), if_pos hps, List.getLast?_concat]
  · have hrc : gcode_M48 p env = some ⟨[Ev.errVerbose], statsInit, true⟩ := by
      unfold gcode_M48
      rw [if_neg (by simp [hh]), if_pos hv]
    simp only [runEvs, runStats, hrc]
    exact ⟨rfl, trivial, by rw [if_pos hv]; rfl⟩

/-! ### Concrete requests and environments for the run-level claims -/

/-- A benign machine environment for concrete runs: homed, everything
reachable, every probe read returning 1.0, cartesian kinematics. -/
def envBase : Env :=
  { homed := true, curX := 0, curY := 0, offX := 0, offY := 0
    reachable := fun _ _ => true
    readings := fun _ => some 1
    rand := fun _ => 0
    kin := .cartesian
    probeRadius := 10
    xMinBed := 0, xMaxBed := 200, yMinBed := 0, yMaxBed := 200
    cosDeg := fun _ => 1, sinDeg := fun _ => 0
    pullFuel := 0 }

/-- A request with every option left at its default. -/
def pDefault : Params :=
  { V := none, P := none, X := none, Y := none, L := none, E := false, S := false }

/-- A request with legs = 20 (out of range) aimed at an explicit target. -/
def pLegs20 : Params :=
  { V := none, P := none, X := some 0, Y := some 0, L := some 20, E := false, S := false }

/-- The environment for the C2 counterexample: nothing is reachable. -/
def envUnreach : Env := { envBase with reachable := fun _ _ => false }

/-- Counterexample to C2 as stated: a request whose legs value 20 is outside
[0, 15] but whose target is unreachable aborts with the `OutOfBounds`
message; the legs `InvalidParameter` message is never reported. -/
theorem C2_cex :
    15 < pLegs20.L.getD 0 ∧
    runEvs pLegs20 envUnreach = [Ev.headerMsg, Ev.errOutOfBounds] ∧
    Ev.errLegs ∉ runEvs pLegs20 envUnreach := by
  have h : runEvs pLegs20 envUnreach = [Ev.headerMsg, Ev.errOutOfBounds] := rfl
  refine ⟨by decide, h, ?_⟩
  rw [h]
  simp

/-- The request for the C2 witness: verbose level 9, outside [0, 4]. -/
def pVerbose9 : Params :=
  { V := some 9, P := none, X := none, Y := none, L := none, E := false, S := false }

/-- Witness for C2_amended: verbose level 9 aborts with no mechanical
events, untouched statistics, and the verbose-level message. -/
theorem C2_witness :
    countP Ev.isMechanical (runEvs pVerbose9 envBase) = 0 ∧
    runStats pVerbose9 envBase = statsInit ∧
    (runEvs pVerbose9 envBase).getLast? = some
      (if ¬(0 ≤ pVerbose9.V.getD 1 ∧ pVerbose9.V.getD 1 ≤ 4) then Ev.errVerbose
       else if ¬(4 ≤ pVerbose9.P.getD 10 ∧ pVerbose9.P.getD 10 ≤ 50) then Ev.errSamples
       else if envBase.reachable (pVerbose9.X.getD (envBase.curX + envBase.offX))
           (pVerbose9.Y.getD (envBase.curY + envBase.offY)) = false then Ev.errOutOfBounds
       else Ev.errLegs) :=
  C2_amended pVerbose9 envBase rfl (Or.inl (by decide))

/-- The environment for the C4 witness: the initial deployment probe
succeeds, the first loop probe read fails. -/
def envFail1 : Env :=
  { envBase with readings := fun j => if j = 0 then some 0 else none }

/-- Witness for C4_thm: with all options at their defaults and the probe
failing at its second call (the first loop read), the run stops after two
probe reads, reports no summary, and stows / restores / reports exactly
once. -/
theorem C4_witness :
    runGood pDefault envFail1 = false ∧
    countP Ev.isProbeRead (runEvs pDefault envFail1) = 1 + 1 ∧
    countP Ev.isStow (runEvs pDefault envFail1) = 1 ∧
    countP Ev.isLevelRestore (runEvs pDefault envFail1) = 1 ∧
    countP Ev.isReportPos (runEvs pDefault envFail1) = 1 ∧
    countP Ev.isFinished (runEvs pDefault envFail1) = 0 ∧
    countP Ev.isReportMMM (runEvs pDefault envFail1) = 0 ∧
    countP Ev.isReportSigma (runEvs pDefault envFail1) = 0 :=
  C4_thm pDefault envFail1 rfl (by decide) (by decide) rfl (by decide) 1
    (by decide) rfl
    (by
      intro j hj
      have hj0 : j = 0 := by omega
      subst hj0
      rfl)
    rfl

/-- A request with four samples and everything else at its defaults. -/
def pFour : Params :=
  { V := none, P := some 4, X := none, Y := none, L := none, E := false, S := false }

/-- The request for the C7 counterexample: verbose level 0, four samples. -/
def pQuiet : Params :=
  { V := some 0, P := some 4, X := none, Y := none, L := none, E := false, S := false }

/-- Counterexample to C7 as stated: a fully successful run at verbose level 0
(a value inside [0, 4]) emits no mean / min / max / range line at all — only
the standard-deviation line of the final block is printed. -/
theorem C7_cex :
    runGood pQuiet envBase = true ∧
    countP Ev.isReportMMM (runEvs pQuiet envBase) = 0 ∧
    countP Ev.isReportSigma (runEvs pQuiet envBase) = 1 := by
  refine ⟨rfl, rfl, rfl⟩

/-- Witness for C7_amended: four samples, verbose level at its default 1,
every probe read succeeding. -/
theorem C7_witness :
    runGood pFour envBase = true ∧
    countP Ev.isFinished (runEvs pFour envBase) = 1 ∧
    countP Ev.isReportSigma (runEvs pFour envBase) = 1 ∧
    countP Ev.isReportMMM (runEvs pFour envBase) =
      (if 0 < pFour.V.getD 1 then 1 else 0) ∧
    countP Ev.isStow (runEvs pFour envBase) = 1 ∧
    countP Ev.isLevelRestore (runEvs pFour envBase) = 1 ∧
    countP Ev.isReportPos (runEvs pFour envBase) = 1 :=
  C7_amended pFour envBase rfl (by decide) (by decide) rfl (by decide)
    (fun j _ => rfl) rfl

/-- Witness for C10_thm: four samples, every probe read succeeding. -/
theorem C10_witness :
    runStats pFour envBase =
      if (envBase.readings 0).isSome then
        List.foldl m48Update statsInit
          (succReads envBase.readings 1 (pFour.P.getD 10).toNat)
      else statsInit :=
  C10_thm pFour envBase rfl (by decide) (by decide) rfl (by decide) rfl

end M48
